import Mathlib

/-!
Verification of the MKDF password derivation and verification tool
(`src/main.rs`) against its specification.

The program derives a Master Key (MK), a verifier hash (HashMK) and a
Derived Protection Key (DPK) from a password and three 16-byte salts,
using the external yescrypt primitive under two fixed parameter
profiles, and can later verify a candidate password against an emitted
verifier hash.

Modelling conventions:
* Byte sequences (`&[u8]`, `Vec<u8>`) are `List Nat` with entries < 256.
* The external yescrypt call `Yescrypt.hash_password_with_params` is a
  black box; it is modelled as an explicit parameter `prim : Prim`
  mapping (input bytes, salt bytes, params) to the full PHC-encoded
  output string.  The repository's code only ever consumes the last
  '$'-separated field of that string (`fields().last()`), which is
  `lastField` below.
* Rust panics (`unwrap` on parse failure, byte-slice panics) are
  modelled by `Option`: `none` is a panic.
* The three salts produced by `generate_salt()` (OS entropy) appear as
  universally quantified parameters: one valuation per run.
* Process behaviour of the verify arm of `main` is `main_verify`,
  returning exit code, stdout lines and stderr lines (or `none` for a
  panic).
-/

namespace MKDF

/-- Model of the yescrypt addressing mode; the program only ever uses
`Mode::default()`. -/
inductive YMode
  | default
deriving DecidableEq

/-- Model of `yescrypt::Params::new_with_all_params(mode, n, r, p, t, g)`. -/
structure Params where
  mode : YMode
  n : Nat
  r : Nat
  p : Nat
  t : Nat
  g : Nat
deriving DecidableEq

/-- Type of the external yescrypt primitive: input bytes, salt bytes and
parameters to the full PHC-encoded hash string. -/
abbrev Prim := List Nat → List Nat → Params → String

/-- Splits a character list into its '$'-separated fields, mirroring the
`fields()` decomposition of a PHC string. -/
def splitFields : List Char → List (List Char)
  | [] => [[]]
  | c :: rest =>
    let r := splitFields rest
    if c = '$' then [] :: r
    else
      match r with
      | f :: fs => (c :: f) :: fs
      | [] => [[c]]

/-- Model of `.fields().last().unwrap().as_str()` on the PHC-encoded
primitive output: the final '$'-separated component. -/
def lastField (s : String) : String :=
  String.mk ((splitFields s.data).getLastD [])

/-- Byte value of the UTF-8 encoding of a character, as produced by
Rust `str::as_bytes`. -/
def charUtf8 (c : Char) : List Nat :=
  let n := c.toNat
  if n < 128 then [n]
  else if n < 2048 then [192 + n / 64, 128 + n % 64]
  else if n < 65536 then [224 + n / 4096, 128 + (n / 64) % 64, 128 + n % 64]
  else [240 + n / 262144, 128 + (n / 4096) % 64, 128 + (n / 64) % 64, 128 + n % 64]

/-- UTF-8 bytes of a string: the view Rust takes of a `String` or `&str`
through `len()`, `as_bytes()` and byte slicing. -/
def strBytes (s : String) : List Nat :=
  s.data.flatMap charUtf8

/-- ASCII code of the lowercase hex digit for `n < 16`, as printed by the
`{:02x}` format. -/
def hexDigitCode (n : Nat) : Nat :=
  if n < 10 then 48 + n else 87 + n

/-- The two ASCII codes of the `{:02x}` rendering of byte `b`. -/
def byteToHex (b : Nat) : List Nat :=
  [hexDigitCode (b / 16), hexDigitCode (b % 16)]

/-- Hex digit as a character. -/
def hexChar (n : Nat) : Char :=
  Char.ofNat (hexDigitCode n)

/-- The hex line the program prints for a salt: each byte as two
lowercase hex characters (`print!("{:02x}", b)` over the 16 bytes). -/
def toHexStr (salt : List Nat) : String :=
  String.mk (salt.flatMap (fun b => [hexChar (b / 16), hexChar (b % 16)]))

/-- Value of an ASCII hex digit byte, as accepted by
`u8::from_str_radix(_, 16)`: 0-9, a-f and A-F. -/
def hexDigitVal (b : Nat) : Option Nat :=
  if 48 ≤ b ∧ b ≤ 57 then some (b - 48)
  else if 97 ≤ b ∧ b ≤ 102 then some (b - 87)
  else if 65 ≤ b ∧ b ≤ 70 then some (b - 55)
  else none

/-- Model of `u8::from_str_radix(s, 16)` on a two-byte slice: an optional
leading ASCII plus sign followed by hex digits.  `none` is a parse error
(and hence, after `unwrap`, a panic); it also covers the byte-slice
panic on a non-character boundary, since any such slice fails here too. -/
def parse_pair (b0 b1 : Nat) : Option Nat :=
  if b0 = 43 then hexDigitVal b1
  else
    match hexDigitVal b0, hexDigitVal b1 with
    | some h, some l => some (16 * h + l)
    | _, _ => none

/-- Loop body of `get_salt`: for indices `i, i+1, ..., i+n-1`, parse the
two-byte slice `salt[2*j..2*j+2]` and collect the decoded bytes; `none`
models the panic the Rust code hits on the first failing slice. -/
def get_salt_go (salt : List Nat) (i : Nat) : Nat → Option (List Nat)
  | 0 => some []
  | n + 1 => do
    let b0 ← salt[2 * i]?
    let b1 ← salt[2 * i + 1]?
    let v ← parse_pair b0 b1
    let rest ← get_salt_go salt (i + 1) n
    pure (v :: rest)

/-- Model of `get_salt`: decode 16 bytes from the 32 input bytes, two hex
characters at a time (`for i in 0..16`). -/
def get_salt (salt : List Nat) : Option (List Nat) :=
  get_salt_go salt 0 16

/-- Model of `readpw` after the stdin read: pop trailing bytes while the
last byte is `\n` (10) or `\r` (13). -/
def readpw (stream : List Nat) : List Nat :=
  (stream.reverse.dropWhile (fun b => b = 10 || b = 13)).reverse

/-- Authentication-profile parameters, as built by `generate_hash_mk`:
`Params::new_with_all_params(Mode::default(), 2048, 8, 1, 0, 0)`. -/
def authParams : Params :=
  ⟨YMode.default, 2048, 8, 1, 0, 0⟩

/-- Protection-profile parameters, as built by `derive_dpk`:
`Params::new_with_all_params(Mode::default(), 32768, 32, 1, 0, 0)`. -/
def protParams : Params :=
  ⟨YMode.default, 32768, 32, 1, 0, 0⟩

/-- Model of `generate_hash_mk`: run the primitive under the
Authentication profile and keep the last PHC field. -/
def generate_hash_mk (prim : Prim) (password salt : List Nat) : String :=
  lastField (prim password salt authParams)

/-- Model of `derive_dpk`: run the primitive under the Protection
profile and keep the last PHC field. -/
def derive_dpk (prim : Prim) (password salt : List Nat) : String :=
  lastField (prim password salt protParams)

/-- Model of `hash_password`: the five stdout lines it prints, in print
order, given the three salts that `generate_salt()` returned. -/
def hash_password (prim : Prim) (password salt1 salt2 salt3 : List Nat) : List String :=
  let mk := generate_hash_mk prim password salt1
  let hash_mk := generate_hash_mk prim (strBytes mk) salt2
  let dpk := derive_dpk prim (strBytes mk) salt3
  [toHexStr salt1, hash_mk, toHexStr salt2, dpk, toHexStr salt3]

/-- Model of `verify_password`: the stdout lines it prints. -/
def verify_password (prim : Prim) (password salt1 salt2 salt3 : List Nat)
    (phash : String) : List String :=
  let mk := generate_hash_mk prim password salt1
  let hash_mk := generate_hash_mk prim (strBytes mk) salt2
  if hash_mk = phash then
    ["Match", derive_dpk prim password salt3]
  else
    ["Mismatch"]

/-- Observable result of one process run: exit code, stdout lines and
stderr lines. -/
structure RunResult where
  exitCode : Nat
  stdout : List String
  stderr : List String
deriving DecidableEq

/-- The one salt-length error message the program prints. -/
def saltLenError : String :=
  "The salts must be 32 characters long (16 bytes long)"

/-- Model of the verify arm of `main`, after the password has been read:
check the byte lengths of the three salt strings (`s.len() != 32`), then
decode them with `get_salt` and run `verify_password`, exiting 0.
`none` models a panic inside `get_salt`. -/
def main_verify (prim : Prim) (password : List Nat) (s1 s2 s3 phash : String) :
    Option RunResult :=
  if (strBytes s1).length ≠ 32 ∨ (strBytes s2).length ≠ 32 ∨ (strBytes s3).length ≠ 32 then
    some ⟨64, [], [saltLenError]⟩
  else do
    let salt1 ← get_salt (strBytes s1)
    let salt2 ← get_salt (strBytes s2)
    let salt3 ← get_salt (strBytes s3)
    some ⟨0, verify_password prim password salt1 salt2 salt3 phash, []⟩

/-- Concrete stand-in primitive used for witnesses: a PHC-like string
whose last field encodes the parameters, input and salt in hex, so that
distinct inputs give distinct digests. -/
def prim0 : Prim := fun input salt params =>
  String.mk ('$' :: 'y' :: '$' :: (toHexStr ([params.n / 256, params.n % 256] ++ input ++ salt)).data)

/-- Concrete password for witnesses: the byte of the letter a. -/
def pw0 : List Nat := [97]

/-- Second concrete password for witnesses: the byte of the letter b. -/
def pw1 : List Nat := [98]

/-- Concrete all-zero 16-byte salt for witnesses. -/
def z16 : List Nat := List.replicate 16 0

/-! Hex round-trip lemmas: the salt lines printed by hash mode decode
back to the original bytes through `get_salt`. -/

set_option maxRecDepth 10000 in
theorem charUtf8_hexChar : ∀ n, n < 16 → charUtf8 (hexChar n) = [hexDigitCode n] := by
  decide

set_option maxRecDepth 100000 in
theorem parse_pair_hexpair : ∀ b, b < 256 →
    parse_pair (hexDigitCode (b / 16)) (hexDigitCode (b % 16)) = some b := by
  decide

theorem strBytes_toHexStr (salt : List Nat) (hb : ∀ b ∈ salt, b < 256) :
    strBytes (toHexStr salt) = salt.flatMap byteToHex := by
  induction salt with
  | nil => rfl
  | cons b rest ih =>
    have hb0 : b < 256 := hb b (List.mem_cons_self b rest)
    have h1 : b / 16 < 16 := by omega
    have h2 : b % 16 < 16 := Nat.mod_lt _ (by omega)
    have hbr : ∀ x ∈ rest, x < 256 := fun x hx => hb x (List.mem_cons_of_mem _ hx)
    have ih2 := ih hbr
    simp only [strBytes, toHexStr] at ih2 ⊢
    simp only [List.flatMap_cons, List.flatMap_append, charUtf8_hexChar _ h1,
      charUtf8_hexChar _ h2, byteToHex, List.flatMap_nil, List.cons_append,
      List.nil_append, List.append_nil]
    rw [ih2]

theorem length_flatMap_byteToHex (salt : List Nat) :
    (salt.flatMap byteToHex).length = 2 * salt.length := by
  induction salt with
  | nil => rfl
  | cons b rest ih =>
    simp only [List.flatMap_cons, byteToHex, List.length_append, List.length_cons,
      List.length_nil, ih]
    omega

theorem get_salt_go_shift (x y : Nat) (l : List Nat) :
    ∀ n i, get_salt_go (x :: y :: l) (i + 1) n = get_salt_go l i n := by
  intro n
  induction n with
  | zero => intro i; rfl
  | succ n ih =>
    intro i
    have e0 : 2 * (i + 1) = 2 * i + 1 + 1 := by omega
    have e1 : 2 * (i + 1) + 1 = 2 * i + 1 + 1 + 1 := by omega
    simp only [get_salt_go, e0, e1, List.getElem?_cons_succ, ih]

theorem get_salt_go_hex (salt : List Nat) (hb : ∀ b ∈ salt, b < 256) :
    get_salt_go (salt.flatMap byteToHex) 0 salt.length = some salt := by
  induction salt with
  | nil => rfl
  | cons b rest ih =>
    have hb0 : b < 256 := hb b (List.mem_cons_self b rest)
    have hbr : ∀ x ∈ rest, x < 256 := fun x hx => hb x (List.mem_cons_of_mem _ hx)
    show get_salt_go (byteToHex b ++ rest.flatMap byteToHex) 0 (rest.length + 1) = _
    simp only [byteToHex, List.cons_append, List.nil_append]
    simp [get_salt_go, parse_pair_hexpair b hb0, get_salt_go_shift, ih hbr]

theorem get_salt_roundtrip_aux (salt : List Nat) (hl : salt.length = 16)
    (hb : ∀ b ∈ salt, b < 256) :
    get_salt (strBytes (toHexStr salt)) = some salt := by
  rw [get_salt, strBytes_toHexStr salt hb, ← hl]
  exact get_salt_go_hex salt hb

/-- C5: for every 16-byte salt value, encoding it as the hex line the
program prints and decoding that string back with `get_salt` yields the
original 16 bytes. -/
theorem c5_hex_roundtrip (salt : List Nat) (hl : salt.length = 16)
    (hb : ∀ b ∈ salt, b < 256) :
    get_salt (strBytes (toHexStr salt)) = some salt :=
  get_salt_roundtrip_aux salt hl hb

/-- Witness for C5 at a concrete nontrivial salt. -/
theorem c5_hex_roundtrip_witness :
    get_salt (strBytes (toHexStr [0, 17, 34, 51, 68, 85, 102, 119, 136, 153, 170, 187, 204, 221, 238, 255])) =
      some [0, 17, 34, 51, 68, 85, 102, 119, 136, 153, 170, 187, 204, 221, 238, 255] :=
  c5_hex_roundtrip [0, 17, 34, 51, 68, 85, 102, 119, 136, 153, 170, 187, 204, 221, 238, 255]
    (by decide) (by decide)

/-! Behaviour of the verify arm of `main` on well-formed hex salt
strings, and the hash-then-verify chain. -/

theorem main_verify_hex (prim : Prim) (pw s1 s2 s3 : List Nat) (ph : String)
    (h1 : s1.length = 16) (h2 : s2.length = 16) (h3 : s3.length = 16)
    (hb1 : ∀ b ∈ s1, b < 256) (hb2 : ∀ b ∈ s2, b < 256) (hb3 : ∀ b ∈ s3, b < 256) :
    main_verify prim pw (toHexStr s1) (toHexStr s2) (toHexStr s3) ph =
      some ⟨0, verify_password prim pw s1 s2 s3 ph, []⟩ := by
  have l1 : (strBytes (toHexStr s1)).length = 32 := by
    rw [strBytes_toHexStr _ hb1, length_flatMap_byteToHex, h1]
  have l2 : (strBytes (toHexStr s2)).length = 32 := by
    rw [strBytes_toHexStr _ hb2, length_flatMap_byteToHex, h2]
  have l3 : (strBytes (toHexStr s3)).length = 32 := by
    rw [strBytes_toHexStr _ hb3, length_flatMap_byteToHex, h3]
  rw [main_verify, if_neg (by simp [l1, l2, l3])]
  rw [get_salt_roundtrip_aux s1 h1 hb1, get_salt_roundtrip_aux s2 h2 hb2,
    get_salt_roundtrip_aux s3 h3 hb3]
  rfl

theorem hash_password_lines (prim : Prim) (pw s1 s2 s3 : List Nat) :
    hash_password prim pw s1 s2 s3 =
      [toHexStr s1,
       generate_hash_mk prim (strBytes (generate_hash_mk prim pw s1)) s2,
       toHexStr s2,
       derive_dpk prim (strBytes (generate_hash_mk prim pw s1)) s3,
       toHexStr s3] := rfl

/-- C1 (amended): hashing a password and immediately verifying it with
the three emitted salt lines and the emitted verifier-hash line yields
a successful run that prints "Match" and the protection-key digest
derived from the raw password (not the Master Key) together with salt3,
and exits 0. -/
theorem c1_hash_then_verify (prim : Prim) (pw s1 s2 s3 : List Nat)
    (h1 : s1.length = 16) (h2 : s2.length = 16) (h3 : s3.length = 16)
    (hb1 : ∀ b ∈ s1, b < 256) (hb2 : ∀ b ∈ s2, b < 256) (hb3 : ∀ b ∈ s3, b < 256) :
    main_verify prim pw
      ((hash_password prim pw s1 s2 s3).getD 0 "")
      ((hash_password prim pw s1 s2 s3).getD 2 "")
      ((hash_password prim pw s1 s2 s3).getD 4 "")
      ((hash_password prim pw s1 s2 s3).getD 1 "") =
      some ⟨0, ["Match", derive_dpk prim pw s3], []⟩ := by
  rw [hash_password_lines]
  simp only [List.getD_cons_zero, List.getD_cons_succ]
  rw [main_verify_hex prim pw s1 s2 s3 _ h1 h2 h3 hb1 hb2 hb3]
  rw [verify_password, if_pos rfl]

/-- Witness for C1 (amended) at a concrete password and salts. -/
theorem c1_hash_then_verify_witness :
    main_verify prim0 pw0
      ((hash_password prim0 pw0 z16 z16 z16).getD 0 "")
      ((hash_password prim0 pw0 z16 z16 z16).getD 2 "")
      ((hash_password prim0 pw0 z16 z16 z16).getD 4 "")
      ((hash_password prim0 pw0 z16 z16 z16).getD 1 "") =
      some ⟨0, ["Match", derive_dpk prim0 pw0 z16], []⟩ :=
  c1_hash_then_verify prim0 pw0 z16 z16 z16 (by decide) (by decide) (by decide)
    (by decide) (by decide) (by decide)

set_option maxRecDepth 1000000 in
/-- Counterexample to C1 as stated: with a primitive that encodes its
input into the digest, the protection-key digest emitted on a
successful verification is not the one derivable from the Master Key
and salt3 (the fourth hash-mode line): verify mode feeds the raw
password into `derive_dpk`, hash mode feeds the Master Key. -/
theorem c1_counterexample :
    main_verify prim0 pw0
      ((hash_password prim0 pw0 z16 z16 z16).getD 0 "")
      ((hash_password prim0 pw0 z16 z16 z16).getD 2 "")
      ((hash_password prim0 pw0 z16 z16 z16).getD 4 "")
      ((hash_password prim0 pw0 z16 z16 z16).getD 1 "") =
      some ⟨0, ["Match", derive_dpk prim0 pw0 z16], []⟩ ∧
    derive_dpk prim0 pw0 z16 ≠ (hash_password prim0 pw0 z16 z16 z16).getD 3 "" := by
  constructor
  · decide
  · decide

set_option maxRecDepth 1000000 in
/-- C2: verifying an altered password against the verifier emitted for
the original password (same salts) prints "Mismatch", prints no
protection key, and exits 0.  The hypothesis `hcol` is the
collision-freedom idealization of the black-box KDF: the two derived
verifier hashes differ whenever the passwords differ. -/
theorem c2_mismatch_no_dpk (prim : Prim) (pw pwc s1 s2 s3 : List Nat)
    (h1 : s1.length = 16) (h2 : s2.length = 16) (h3 : s3.length = 16)
    (hb1 : ∀ b ∈ s1, b < 256) (hb2 : ∀ b ∈ s2, b < 256) (hb3 : ∀ b ∈ s3, b < 256)
    (hne : pwc ≠ pw)
    (hcol : generate_hash_mk prim (strBytes (generate_hash_mk prim pwc s1)) s2 ≠
            generate_hash_mk prim (strBytes (generate_hash_mk prim pw s1)) s2) :
    main_verify prim pwc
      ((hash_password prim pw s1 s2 s3).getD 0 "")
      ((hash_password prim pw s1 s2 s3).getD 2 "")
      ((hash_password prim pw s1 s2 s3).getD 4 "")
      ((hash_password prim pw s1 s2 s3).getD 1 "") =
      some ⟨0, ["Mismatch"], []⟩ := by
  rw [hash_password_lines]
  simp only [List.getD_cons_zero, List.getD_cons_succ]
  rw [main_verify_hex prim pwc s1 s2 s3 _ h1 h2 h3 hb1 hb2 hb3]
  rw [verify_password, if_neg hcol]

/-- Witness for C2 at concrete distinct passwords. -/
theorem c2_mismatch_no_dpk_witness :
    main_verify prim0 pw1
      ((hash_password prim0 pw0 z16 z16 z16).getD 0 "")
      ((hash_password prim0 pw0 z16 z16 z16).getD 2 "")
      ((hash_password prim0 pw0 z16 z16 z16).getD 4 "")
      ((hash_password prim0 pw0 z16 z16 z16).getD 1 "") =
      some ⟨0, ["Mismatch"], []⟩ :=
  c2_mismatch_no_dpk prim0 pw0 pw1 z16 z16 z16 (by decide) (by decide) (by decide)
    (by decide) (by decide) (by decide) (by decide) (by decide)

set_option maxRecDepth 1000000 in
/-- C3: the hash-mode protection-key derivation feeds the Master Key
into `derive_dpk`, the verify-mode protection-key derivation feeds the
raw candidate password; with a primitive that encodes its input into
the digest the two paths produce different protection keys for the
same password. -/
theorem c3_dpk_input_divergence :
    (∀ (prim : Prim) (pw s1 s2 s3 : List Nat),
      (hash_password prim pw s1 s2 s3).getD 3 "" =
        derive_dpk prim (strBytes (generate_hash_mk prim pw s1)) s3 ∧
      verify_password prim pw s1 s2 s3
          (generate_hash_mk prim (strBytes (generate_hash_mk prim pw s1)) s2) =
        ["Match", derive_dpk prim pw s3]) ∧
    derive_dpk prim0 pw0 z16 ≠
      derive_dpk prim0 (strBytes (generate_hash_mk prim0 pw0 z16)) z16 := by
  constructor
  · intro prim pw s1 s2 s3
    constructor
    · rfl
    · rw [verify_password, if_pos rfl]
  · decide

/-! Salt-string length validation in the verify arm of `main`. -/

/-- C4 (amended): before any hex decoding, the verify arm checks the
byte length of all three salt strings; if any is not 32 bytes the run
is a usage error, exit code 64, with the one generic length message
(which does not name the failing salt), and no decoding is attempted
even on undecodable content. -/
theorem c4_length_before_decode (prim : Prim) (pw : List Nat) (s1 s2 s3 ph : String)
    (hlen : (strBytes s1).length ≠ 32 ∨ (strBytes s2).length ≠ 32 ∨
      (strBytes s3).length ≠ 32) :
    main_verify prim pw s1 s2 s3 ph = some ⟨64, [], [saltLenError]⟩ := by
  rw [main_verify, if_pos hlen]

/-- Witness for C4 (amended): a two-character first salt with
undecodable content in another position is rejected as a usage error. -/
theorem c4_length_before_decode_witness :
    main_verify prim0 pw0 (toHexStr [0]) (String.mk (List.replicate 32 '$'))
      (toHexStr z16) "x" = some ⟨64, [], [saltLenError]⟩ :=
  c4_length_before_decode prim0 pw0 (toHexStr [0]) (String.mk (List.replicate 32 '$'))
    (toHexStr z16) "x" (by decide)

/-- Concrete 16-character salt string of two-byte characters: 32 UTF-8
bytes but only 16 characters. -/
def accentS : String := String.mk (List.replicate 16 (Char.ofNat 233))

set_option maxRecDepth 10000 in
/-- Counterexample to C4 as stated: the error output is identical no
matter which salt fails the length check, so it cannot name the salt
that failed; and the check is on UTF-8 bytes, not characters: a
16-character salt of two-byte characters passes the length check and
then panics inside `get_salt` instead of being rejected as a usage
error. -/
theorem c4_counterexample :
    main_verify prim0 pw0 (toHexStr [0]) (toHexStr z16) (toHexStr z16) "x" =
      main_verify prim0 pw0 (toHexStr z16) (toHexStr [0]) (toHexStr z16) "x" ∧
    main_verify prim0 pw0 accentS (toHexStr z16) (toHexStr z16) "x" = none ∧
    accentS.length ≠ 32 := by
  refine ⟨by decide, by decide, by decide⟩

/-- C6: both modes derive the Master Key and the verifier hash under the
fixed Authentication parameters (N = 2048, r = 8, p = 1) and the
protection key under the fixed Protection parameters (N = 32768, r = 32,
p = 1); the functions take no parameter argument, so the profiles are
constants of the program. -/
theorem c6_fixed_profiles :
    ∀ (prim : Prim) (input salt pw s1 s2 s3 : List Nat) (ph : String),
      generate_hash_mk prim input salt =
        lastField (prim input salt ⟨YMode.default, 2048, 8, 1, 0, 0⟩) ∧
      derive_dpk prim input salt =
        lastField (prim input salt ⟨YMode.default, 32768, 32, 1, 0, 0⟩) ∧
      hash_password prim pw s1 s2 s3 =
        [toHexStr s1,
         lastField (prim (strBytes (lastField (prim pw s1 ⟨YMode.default, 2048, 8, 1, 0, 0⟩))) s2
           ⟨YMode.default, 2048, 8, 1, 0, 0⟩),
         toHexStr s2,
         lastField (prim (strBytes (lastField (prim pw s1 ⟨YMode.default, 2048, 8, 1, 0, 0⟩))) s3
           ⟨YMode.default, 32768, 32, 1, 0, 0⟩),
         toHexStr s3] ∧
      verify_password prim pw s1 s2 s3 ph =
        (if lastField (prim (strBytes (lastField (prim pw s1 ⟨YMode.default, 2048, 8, 1, 0, 0⟩))) s2
             ⟨YMode.default, 2048, 8, 1, 0, 0⟩) = ph then
          ["Match", lastField (prim pw s3 ⟨YMode.default, 32768, 32, 1, 0, 0⟩)]
        else
          ["Mismatch"]) :=
  fun _ _ _ _ _ _ _ _ => ⟨rfl, rfl, rfl, rfl⟩

/-- C8: hash mode emits exactly five lines, in order: salt1 in hex, the
verifier-hash digest, salt2 in hex, the protection-key digest, salt3 in
hex. -/
theorem c8_five_output_lines :
    ∀ (prim : Prim) (pw s1 s2 s3 : List Nat),
      hash_password prim pw s1 s2 s3 =
        [toHexStr s1,
         generate_hash_mk prim (strBytes (generate_hash_mk prim pw s1)) s2,
         toHexStr s2,
         derive_dpk prim (strBytes (generate_hash_mk prim pw s1)) s3,
         toHexStr s3] ∧
      (hash_password prim pw s1 s2 s3).length = 5 :=
  fun _ _ _ _ _ => ⟨rfl, rfl⟩

/-! Password stream handling: `readpw` strips exactly the maximal
trailing run of carriage-return and line-feed bytes. -/

theorem getLastD_append_single {α : Type} (a : α) : ∀ (l : List α) (d : α),
    (l ++ [a]).getLastD d = a := by
  intro l
  induction l with
  | nil => intro d; rfl
  | cons x xs ih => intro d; rw [List.cons_append, List.getLastD_cons]; exact ih x

theorem readpw_decomp (l : List Nat) :
    l = readpw l ++ (l.reverse.takeWhile (fun b => b = 10 || b = 13)).reverse := by
  conv_lhs => rw [← List.reverse_reverse l,
    ← List.takeWhile_append_dropWhile (p := fun b => b = 10 || b = 13) (l := l.reverse)]
  rw [List.reverse_append]
  rfl

/-- C9: the password used in derivation is the input stream with the
maximal trailing run of carriage-return and line-feed bytes removed:
it is a prefix of the stream, everything removed is a CR or LF byte,
and what remains does not end in a CR or LF byte. -/
theorem c9_trailing_strip (l : List Nat) :
    readpw l = l.take (readpw l).length ∧
    (∀ b ∈ l.drop (readpw l).length, b = 10 ∨ b = 13) ∧
    (readpw l = [] ∨ ((readpw l).getLastD 0 ≠ 10 ∧ (readpw l).getLastD 0 ≠ 13)) := by
  refine ⟨?_, ?_, ?_⟩
  · have h := readpw_decomp l
    nth_rewrite 3 [h]
    exact (List.take_left _ _).symm
  · intro b hb
    have h := readpw_decomp l
    nth_rewrite 2 [h] at hb
    rw [List.drop_left, List.mem_reverse] at hb
    have hp := List.mem_takeWhile_imp hb
    simp only [Bool.or_eq_true, decide_eq_true_eq] at hp
    exact hp
  · cases hd : l.reverse.dropWhile (fun b => b = 10 || b = 13) with
    | nil =>
      left
      unfold readpw
      rw [hd]
      rfl
    | cons x xs =>
      right
      have hx := List.head?_dropWhile_not (fun b : Nat => b = 10 || b = 13) l.reverse
      rw [hd] at hx
      simp only [List.head?_cons] at hx
      unfold readpw
      rw [hd, List.reverse_cons, getLastD_append_single]
      simp only [Bool.or_eq_false_iff, decide_eq_false_iff_not] at hx
      exact hx

/-- Witness for C9 at a concrete stream with interior and trailing
line terminators. -/
theorem c9_trailing_strip_witness :
    readpw [32, 97, 13, 10, 98, 10, 13] =
      [32, 97, 13, 10, 98, 10, 13].take (readpw [32, 97, 13, 10, 98, 10, 13]).length :=
  (c9_trailing_strip [32, 97, 13, 10, 98, 10, 13]).1

/-! Domain of the salt parser: which 32-byte inputs decode and which
panic. -/

/-- The two-byte slice of `salt` at pair index `k`, parsed; `none` when
out of range or unparsable. -/
def pairAt (salt : List Nat) (k : Nat) : Option Nat :=
  (salt[2 * k]?).bind fun b0 => (salt[2 * k + 1]?).bind fun b1 => parse_pair b0 b1

/-- A byte is an ASCII hexadecimal digit: 0-9, a-f or A-F. -/
def isHexDigitByte (b : Nat) : Prop :=
  (48 ≤ b ∧ b ≤ 57) ∨ (97 ≤ b ∧ b ≤ 102) ∨ (65 ≤ b ∧ b ≤ 70)

instance (b : Nat) : Decidable (isHexDigitByte b) := by
  unfold isHexDigitByte
  infer_instance

theorem hexDigitVal_isSome (b : Nat) :
    (hexDigitVal b).isSome = true ↔ isHexDigitByte b := by
  unfold hexDigitVal isHexDigitByte
  split_ifs with h1 h2 h3 <;> simp_all

theorem parse_pair_isSome (b0 b1 : Nat) :
    (parse_pair b0 b1).isSome = true ↔
      ((b0 = 43 ∧ isHexDigitByte b1) ∨ (isHexDigitByte b0 ∧ isHexDigitByte b1)) := by
  unfold parse_pair
  split_ifs with h0
  · subst h0
    rw [hexDigitVal_isSome]
    constructor
    · intro h
      exact Or.inl ⟨rfl, h⟩
    · rintro (⟨_, h⟩ | ⟨h, _⟩)
      · exact h
      · exact absurd h (by decide)
  · have hiff : (match hexDigitVal b0, hexDigitVal b1 with
        | some h, some l => some (16 * h + l)
        | _, _ => (none : Option Nat)).isSome = true ↔
        ((hexDigitVal b0).isSome = true ∧ (hexDigitVal b1).isSome = true) := by
      rcases hexDigitVal b0 with _ | v0 <;> rcases hexDigitVal b1 with _ | v1 <;> simp
    rw [hiff, hexDigitVal_isSome, hexDigitVal_isSome]
    constructor
    · exact Or.inr
    · rintro (⟨h43, _⟩ | hh)
      · exact absurd h43 h0
      · exact hh

theorem get_salt_go_succ (salt : List Nat) (i n : Nat) :
    get_salt_go salt i (n + 1) =
      (pairAt salt i).bind fun v => (get_salt_go salt (i + 1) n).map (v :: ·) := by
  unfold pairAt
  rcases h0 : salt[2 * i]? with _ | b0
  · simp [get_salt_go, h0]
  · rcases h1 : salt[2 * i + 1]? with _ | b1
    · simp [get_salt_go, h0, h1]
    · rcases hp : parse_pair b0 b1 with _ | v
      · simp [get_salt_go, h0, h1, hp]
      · rcases hr : get_salt_go salt (i + 1) n with _ | r
        · simp [get_salt_go, h0, h1, hp, hr]
        · simp [get_salt_go, h0, h1, hp, hr]

theorem get_salt_go_isSome (salt : List Nat) :
    ∀ n i, (get_salt_go salt i n).isSome = true ↔
      ∀ j, j < n → (pairAt salt (i + j)).isSome = true := by
  intro n
  induction n with
  | zero =>
    intro i
    simp [get_salt_go]
  | succ n ih =>
    intro i
    rw [get_salt_go_succ]
    rcases hp : pairAt salt i with _ | v
    · constructor
      · intro h
        simp at h
      · intro h
        have h0 := h 0 (by omega)
        rw [Nat.add_zero, hp] at h0
        simp at h0
    · have hmap : ((some v).bind fun v => (get_salt_go salt (i + 1) n).map (v :: ·)).isSome =
          (get_salt_go salt (i + 1) n).isSome := by
        cases get_salt_go salt (i + 1) n <;> rfl
      rw [hmap, ih (i + 1)]
      constructor
      · intro h j hj
        cases j with
        | zero =>
          rw [Nat.add_zero, hp]
          rfl
        | succ j =>
          have hgot := h j (by omega)
          rwa [show i + 1 + j = i + (j + 1) from by omega] at hgot
      · intro h j hj
        have hgot := h (j + 1) (by omega)
        rwa [show i + (j + 1) = i + 1 + j from by omega] at hgot

theorem get_salt_go_length (salt : List Nat) :
    ∀ n i r, get_salt_go salt i n = some r → r.length = n := by
  intro n
  induction n with
  | zero =>
    intro i r h
    simp only [get_salt_go] at h
    cases h
    rfl
  | succ n ih =>
    intro i r h
    rw [get_salt_go_succ] at h
    rcases hp : pairAt salt i with _ | v <;> rw [hp] at h
    · simp at h
    · rcases hr : get_salt_go salt (i + 1) n with _ | r' <;> rw [hr] at h
      · simp at h
      · have hlen := ih (i + 1) r' hr
        have hr2 : r = v :: r' := by
          have h2 : ((some v).bind fun v => (some r').map (v :: ·)) = some (v :: r') := rfl
          rw [h2] at h
          exact (Option.some_inj.mp h).symm
        rw [hr2, List.length_cons, hlen]

/-- C10 (amended): for every 32-byte input, the salt parser succeeds,
returning 16 decoded bytes, exactly when each two-byte slice is either
two ASCII hex digits or an ASCII plus sign followed by a hex digit
(`u8::from_str_radix` accepts an optional leading plus); every other
32-byte input panics via `unwrap` (or via the byte-slice panic for
non-ASCII content) instead of reporting a recoverable error. -/
theorem c10_parser_domain (s : List Nat) (hl : s.length = 32) :
    ((get_salt s).isSome = true ↔
      ∀ i, i < 16 →
        ((isHexDigitByte ((s[2 * i]?).getD 0) ∧ isHexDigitByte ((s[2 * i + 1]?).getD 0)) ∨
          ((s[2 * i]?).getD 0 = 43 ∧ isHexDigitByte ((s[2 * i + 1]?).getD 0)))) ∧
    (∀ r, get_salt s = some r → r.length = 16) := by
  constructor
  · rw [get_salt, get_salt_go_isSome]
    apply forall_congr'
    intro j
    constructor <;> intro h hj <;> have hlt0 : 2 * j < s.length := by omega
    all_goals have hlt1 : 2 * j + 1 < s.length := by omega
    all_goals have e0 := List.getElem?_eq_getElem hlt0
    all_goals have e1 := List.getElem?_eq_getElem hlt1
    · have h2 := h hj
      rw [Nat.zero_add, pairAt, e0, e1] at h2
      simp only [Option.some_bind] at h2
      rw [parse_pair_isSome] at h2
      rw [e0, e1]
      simp only [Option.getD_some]
      tauto
    · rw [Nat.zero_add, pairAt, e0, e1]
      simp only [Option.some_bind]
      rw [parse_pair_isSome]
      have h2 := h hj
      rw [e0, e1] at h2
      simp only [Option.getD_some] at h2
      tauto
  · intro r h
    exact get_salt_go_length s 16 0 r h

/-- Witness for C10 (amended): the all-zero hex line is in the parser
domain. -/
theorem c10_parser_domain_witness :
    (get_salt (strBytes (toHexStr z16))).isSome = true := by
  have h := c10_parser_domain (strBytes (toHexStr z16)) (by decide)
  exact h.1.mpr (by decide)

/-- Concrete 32-character string of sixteen plus-digit pairs. -/
def plusS : String := String.mk (List.flatten (List.replicate 16 ['+', '0']))

/-- Counterexample to C10 as stated: a 32-character string containing
the non-hexadecimal character at code 43 (the plus sign) on which
`get_salt` does not panic but successfully returns 16 decoded bytes,
because `u8::from_str_radix` accepts an optional leading plus sign. -/
theorem c10_counterexample :
    plusS.length = 32 ∧ (43 ∈ strBytes plusS ∧ ¬ isHexDigitByte 43) ∧
      get_salt (strBytes plusS) = some z16 := by
  refine ⟨by decide, ⟨by decide, by decide⟩, by decide⟩

end MKDF
